import Mathlib

/-
Verification development for the 4-category materials-extraction pipeline
(`o3mini_multiple_request_no_source_text.py` and
`o3mini_onetime_request_no_source_text.py`).

The pipeline's pure data transformations are shallowly embedded here:
Python strings become `List Char`, JSON values become the mutual
inductive `JVal`, Python dicts become association lists with
Python-style insertion (replace in place, else append at the end),
and calls to external collaborators (the PDF library, the LLM backend,
`json.loads`) are parameters of the embedded functions: an
`Except Unit _` parameter stands for a call that either raises or
returns, and a `parse : List Char → Option JVal` parameter stands for
`json.loads`, with `none` for a raised `JSONDecodeError`.
-/

/-- Python whitespace for `str.strip` / regex `\s` (ASCII range):
space, tab, newline, carriage return, vertical tab, form feed. -/
def pyWs (c : Char) : Bool :=
  c = ' ' || c = '\t' || c = '\n' || c = '\r' || c = '\x0b' || c = '\x0c'

/-- Python `str.lstrip()`. -/
def pyLstrip (s : List Char) : List Char :=
  s.dropWhile pyWs

/-- Python `str.rstrip()`. -/
def pyRstrip (s : List Char) : List Char :=
  (s.reverse.dropWhile pyWs).reverse

/-- Python `str.strip()`. -/
def pyStrip (s : List Char) : List Char :=
  pyRstrip (pyLstrip s)

/-- Split `s` at the first occurrence of `pat`: returns the part before
the occurrence and the part after it, or `none` when `pat` does not
occur.  Models the leftmost-match behaviour of `re.search` for the
literal parts of the patterns used in the source. -/
def splitFirst (pat : List Char) : List Char → Option (List Char × List Char)
  | [] => if pat.isEmpty then some ([], []) else none
  | c :: rest =>
    if pat.isPrefixOf (c :: rest) then some ([], (c :: rest).drop pat.length)
    else (splitFirst pat rest).map (fun p => (c :: p.1, p.2))

/-- Model of `re.search(r'```json\s*([\s\S]*?)\s*```', content)` followed
by `.group(1).strip()` in `JsonFixAgent.fix_json` (and, without the
comment-stripping that follows there, in `ValidationAgent.validate`):
the text between the first occurrence of ```` ```json ```` and the next
```` ``` ```` after it, stripped; `none` when no such fenced block is
closed.  (Because the group is stripped afterwards, the `\s*` paddings
of the regex are absorbed by the strip.) -/
def extractJsonBlock (content : List Char) : Option (List Char) :=
  match splitFirst ("```json".data) content with
  | none => none
  | some (_, rest) =>
    match splitFirst ("```".data) rest with
    | none => none
    | some (mid, _) => some (pyStrip mid)

/-- The first index (as prefix length) of the first occurrence of `pat`
in `s`, or `none`. -/
def firstIdx (pat s : List Char) : Option Nat :=
  (splitFirst pat s).map (fun p => p.1.length)

/-- Drop characters up to (but not including) the next newline, or to the
end of the string: the extent of `.*$` in a MULTILINE regex, whose `$`
matches before the newline without consuming it. -/
def dropToEol : List Char → List Char
  | [] => []
  | c :: r => if c = '\n' then c :: r else dropToEol r

/-- Fuelled worker for `stripComments`.  At each position, the pattern
`\s*//.*$` matches exactly when dropping whitespace (which may span
newlines) reaches `//` immediately; the match then consumes that
whitespace run, the `//` and the rest of the line.  Scanning characters
left to right reproduces `re.sub`'s leftmost, non-overlapping matching.
The fuel only certifies termination: `stripCommentsF_irrel` below shows
any fuel of at least the string's length gives the same result. -/
def stripCommentsF : Nat → List Char → List Char
  | 0, s => s
  | _ + 1, [] => []
  | fuel + 1, c :: rest =>
    let t := (c :: rest).dropWhile pyWs
    if ("//".data).isPrefixOf t then stripCommentsF fuel (dropToEol (t.drop 2))
    else c :: stripCommentsF fuel rest

/-- Model of `re.sub(r'\s*//.*$', '', json_str, flags=re.MULTILINE)` in
`JsonFixAgent.fix_json`. -/
def stripComments (s : List Char) : List Char :=
  stripCommentsF s.length s

theorem dropToEol_length_le (s : List Char) : (dropToEol s).length ≤ s.length := by
  induction s with
  | nil => simp [dropToEol]
  | cons c r ih =>
    by_cases h : c = '\n'
    · simp [dropToEol, h]
    · simp only [dropToEol, h, if_false, List.length_cons]
      omega

theorem length_dropWhileWs_le (l : List Char) : (l.dropWhile pyWs).length ≤ l.length := by
  induction l with
  | nil => simp
  | cons a t ih =>
    by_cases h : pyWs a
    · simp only [List.dropWhile_cons, h, if_true, List.length_cons]
      omega
    · simp [List.dropWhile_cons, h]

theorem stripCommentsF_irrel :
    ∀ f1 f2 s, s.length ≤ f1 → s.length ≤ f2 → stripCommentsF f1 s = stripCommentsF f2 s := by
  intro f1
  induction f1 with
  | zero =>
    intro f2 s h1 _
    have hs : s = [] := List.length_eq_zero.mp (Nat.le_zero.mp h1)
    subst hs
    cases f2 <;> rfl
  | succ a ih =>
    intro f2 s h1 h2
    cases s with
    | nil => cases f2 <;> rfl
    | cons c rest =>
      cases f2 with
      | zero => exact absurd h2 (by simp)
      | succ b =>
        have hrest_a : rest.length ≤ a := by simpa using Nat.lt_succ_iff.mp (Nat.lt_of_lt_of_le (by simp) h1)
        have hrest_b : rest.length ≤ b := by simpa using Nat.lt_succ_iff.mp (Nat.lt_of_lt_of_le (by simp) h2)
        show stripCommentsF (a + 1) (c :: rest) = stripCommentsF (b + 1) (c :: rest)
        simp only [stripCommentsF]
        by_cases hpp : ("//".data).isPrefixOf ((c :: rest).dropWhile pyWs)
        · rw [if_pos hpp, if_pos hpp]
          have hlen : (dropToEol (((c :: rest).dropWhile pyWs).drop 2)).length ≤ rest.length := by
            have hd1 : (((c :: rest).dropWhile pyWs).drop 2).length ≤ (c :: rest).length - 2 := by
              have := length_dropWhileWs_le (c :: rest)
              simp only [List.length_drop]
              omega
            have := dropToEol_length_le (((c :: rest).dropWhile pyWs).drop 2)
            simp only [List.length_cons] at hd1
            omega
          exact ih b _ (Nat.le_trans hlen hrest_a) (Nat.le_trans hlen hrest_b)
        · rw [if_neg hpp, if_neg hpp, ih b rest hrest_a hrest_b]

theorem stripCommentsF_eq_stripComments (fuel : Nat) (s : List Char) (h : s.length ≤ fuel) :
    stripCommentsF fuel s = stripComments s :=
  stripCommentsF_irrel fuel s.length s h (Nat.le_refl _)

mutual

/-- JSON values as produced by `json.loads`.  Numbers are modelled as
integers (no claim depends on float arithmetic); objects keep their
key insertion order, matching Python 3 dicts. -/
inductive JVal where
  | null
  | bool (b : Bool)
  | num (n : Int)
  | str (s : String)
  | arr (xs : JArr)
  | obj (kvs : JObj)
deriving DecidableEq, Repr

/-- A JSON array (a Python list of JSON values). -/
inductive JArr where
  | nil
  | cons (v : JVal) (t : JArr)
deriving DecidableEq, Repr

/-- A JSON object (a Python dict from string keys to JSON values),
as an ordered association list. -/
inductive JObj where
  | nil
  | cons (k : String) (v : JVal) (t : JObj)
deriving DecidableEq, Repr

end

/-- Python truthiness of a JSON value: `None`, `False`, `0`, `""`,
`[]` and the empty dict are falsy, everything else truthy. -/
def truthy : JVal → Bool
  | .null => false
  | .bool b => b
  | .num n => n ≠ 0
  | .str s => !s.isEmpty
  | .arr .nil => false
  | .arr (.cons _ _) => true
  | .obj .nil => false
  | .obj (.cons _ _ _) => true

/-- The final normalisation of `JsonFixAgent.fix_json`:
`return [parsed] if isinstance(parsed, dict) else parsed`. -/
def wrapParsed : JVal → JVal
  | .obj kvs => .arr (.cons (.obj kvs) .nil)
  | v => v

/-- The candidate payload chosen by `fix_json`:
`json_str = json_block.group(1).strip() if json_block else content.strip()`. -/
def candidate (content : List Char) : List Char :=
  match extractJsonBlock content with
  | some b => b
  | none => pyStrip content

/-- Model of `JsonFixAgent.fix_json` from the backend response onwards
(`o3mini_multiple_request_no_source_text.py` lines 144-189, identical in
the onetime variant).  `call` is the backend chat-completion call (it may
raise, which the `try` turns into `None`); `parse` is `json.loads`, with
`none` for a raised `JSONDecodeError`.  On success the parsed value is
normalised by `wrapParsed`; every failure path returns `none` instead of
raising, because the whole body sits inside `try ... except: return None`. -/
def fix_json (call : Except Unit (List Char)) (parse : List Char → Option JVal) : Option JVal :=
  match call with
  | .error _ => none
  | .ok content =>
    match parse (stripComments (candidate content)) with
    | some parsed => some (wrapParsed parsed)
    | none => none

/-- The Structuring Agent's repair step as the spec words it: extract the
content of a fenced code block if present, else take the entire stripped
response; strip trailing single-line comments; parse; normalise a bare
object into a one-element sequence; return nothing on parse failure. -/
def fixJsonSpec (parse : List Char → Option JVal) (content : List Char) : Option JVal :=
  (parse (stripComments ((extractJsonBlock content).getD (pyStrip content)))).map wrapParsed

/-- C1: for every backend response string, `fix_json` parses the content
of the first closed ```` ```json ```` fenced block when one is present and
otherwise the entire stripped response; in both cases trailing `//`
comments are removed before parsing; a parsed bare object is wrapped into
a one-element array while a parsed array is returned as-is; and when the
parse fails the function returns no structured data instead of raising. -/
theorem fix_json_meets_spec (parse : List Char → Option JVal) (content : List Char) :
    fix_json (Except.ok content) parse = fixJsonSpec parse content
    ∧ (∀ b, extractJsonBlock content = some b →
        fix_json (Except.ok content) parse = (parse (stripComments b)).map wrapParsed)
    ∧ (extractJsonBlock content = none →
        fix_json (Except.ok content) parse = (parse (stripComments (pyStrip content))).map wrapParsed)
    ∧ (∀ kvs, parse (stripComments (candidate content)) = some (JVal.obj kvs) →
        fix_json (Except.ok content) parse = some (JVal.arr (JArr.cons (JVal.obj kvs) JArr.nil)))
    ∧ (∀ xs, parse (stripComments (candidate content)) = some (JVal.arr xs) →
        fix_json (Except.ok content) parse = some (JVal.arr xs))
    ∧ (parse (stripComments (candidate content)) = none →
        fix_json (Except.ok content) parse = none) := by
  refine ⟨?_, ?_, ?_, ?_, ?_, ?_⟩
  · cases hb : extractJsonBlock content with
    | none =>
      cases hp : parse (stripComments (pyStrip content)) <;>
        simp [fix_json, fixJsonSpec, candidate, hb, hp]
    | some b =>
      cases hp : parse (stripComments b) <;>
        simp [fix_json, fixJsonSpec, candidate, hb, hp]
  · intro b hb
    cases hp : parse (stripComments b) <;> simp [fix_json, candidate, hb, hp]
  · intro hb
    cases hp : parse (stripComments (pyStrip content)) <;> simp [fix_json, candidate, hb, hp]
  · intro kvs h
    simp [fix_json, h, wrapParsed]
  · intro xs h
    simp [fix_json, h, wrapParsed]
  · intro h
    simp [fix_json, h]

/-- A concrete response wrapping a JSON array in a fenced block with a
trailing comment and surrounding prose. -/
def fixDemoContent : List Char :=
  ("Sure. ```json" ++ "\n" ++ "[1, 2] // two values" ++ "\n" ++ "``` done").data

/-- A concrete stand-in for `json.loads` defined on the payload the demo
response reduces to after block extraction and comment stripping. -/
def fixDemoParse (s : List Char) : Option JVal :=
  if s = "[1, 2]".data then some (JVal.arr (JArr.cons (JVal.num 1) (JArr.cons (JVal.num 2) JArr.nil)))
  else none

theorem fix_json_meets_spec_witness :
    fix_json (Except.ok fixDemoContent) fixDemoParse
      = some (JVal.arr (JArr.cons (JVal.num 1) (JArr.cons (JVal.num 2) JArr.nil))) :=
  (fix_json_meets_spec fixDemoParse fixDemoContent).2.2.2.2.1
    (JArr.cons (JVal.num 1) (JArr.cons (JVal.num 2) JArr.nil)) (by decide)

/-- Model of `ValidationAgent.validate`
(`o3mini_multiple_request_no_source_text.py` lines 196-262, identical in
the onetime variant).  `reload` is the `extract_from_pdf` re-run on the
document (note: that call sits before the `try`, so a raised exception
propagates out of `validate`); `call` is the backend chat-completion call
(inside the `try`, so a raised exception yields the original database);
`parse` is `json.loads`, whose failure is caught by the inner
`except json.JSONDecodeError`.  The response text undergoes fenced-block
extraction and stripping but, unlike `fix_json`, no comment removal. -/
def validate (reload : Except Unit (List Char)) (call : Except Unit (List Char))
    (parse : List Char → Option JVal) (db : JVal) : Except Unit JVal :=
  match reload with
  | .error e => .error e
  | .ok full_text =>
    if full_text.isEmpty then .ok db
    else
      match call with
      | .error _ => .ok db
      | .ok content =>
        match parse (candidate content) with
        | some v => .ok v
        | none => .ok db

/-- C2 counterexample: when the document-text reload itself raises, the
exception propagates out of `validate` (the reload call is outside the
`try`), so `validate` does not return the original database. -/
theorem validate_reload_raise_cex :
    validate (Except.error ()) (Except.ok ("x".data)) (fun _ => none) (JVal.obj JObj.nil)
      ≠ Except.ok (JVal.obj JObj.nil) :=
  fun h => Except.noConfusion h

/-- C2 (amended): whenever the reload succeeds, `validate` returns the
input database itself, unchanged, in each of the three failure cases:
the reloaded text is empty, the backend call raises, or the backend's
response cannot be parsed as structured data.  (When the reload itself
raises, the exception propagates out of `validate` instead, as the
counterexample above shows.) -/
theorem validate_fail_soft (ft : List Char) (call : Except Unit (List Char))
    (parse : List Char → Option JVal) (db : JVal) :
    (ft = [] → validate (Except.ok ft) call parse db = Except.ok db)
    ∧ (∀ e, validate (Except.ok ft) (Except.error e) parse db = Except.ok db)
    ∧ (∀ c, call = Except.ok c → parse (candidate c) = none →
        validate (Except.ok ft) call parse db = Except.ok db) := by
  refine ⟨?_, ?_, ?_⟩
  · intro h
    subst h
    rfl
  · intro e
    by_cases hft : ft.isEmpty <;> simp [validate, hft]
  · intro c hc hp
    subst hc
    by_cases hft : ft.isEmpty <;> simp [validate, hft, hp]

theorem validate_fail_soft_witness :
    validate (Except.ok ("text".data)) (Except.ok ("not json".data))
      (fun _ => none) (JVal.obj JObj.nil) = Except.ok (JVal.obj JObj.nil) :=
  (validate_fail_soft ("text".data) (Except.ok ("not json".data))
    (fun _ => none) (JVal.obj JObj.nil)).2.2 ("not json".data) rfl rfl

/-- Python's `"\n".join(...)` on a list of strings. -/
def joinWith (sep : List Char) : List (List Char) → List Char
  | [] => []
  | [x] => x
  | x :: y :: r => x ++ sep ++ joinWith sep (y :: r)

/-- The page-text lines of the combined text: for each page, in page
order, `f"Page {page_number}:\n{text}"`, where `extract_text` numbered
the pages from 1 and stripped each page's raw text. -/
def pageSection (pages : List (List Char)) : List (List Char) :=
  pages.enum.map (fun p => "Page ".data ++ (Nat.repr (p.1 + 1)).data ++ ":\n".data ++ pyStrip p.2)

/-- The table lines of the combined text: for each extracted non-empty
table, `f"\nTable {table_index}:\n{serialized_rows}"`; the serialized
row dump produced by `json.dumps(..., indent=2)` is taken as given. -/
def tableSection (tables : List (Nat × List Char)) : List (List Char) :=
  tables.map (fun t => "\nTable ".data ++ (Nat.repr t.1).data ++ ":\n".data ++ t.2)

/-- The image lines of the combined text: the header `"\nImages found:"`
followed by `f"- {basename}"` for each extracted image. -/
def imageSection (images : List (List Char)) : List (List Char) :=
  "\nImages found:".data :: images.map (fun b => "- ".data ++ b)

/-- Model of `ExtractAgent.extract_from_pdf`
(`o3mini_multiple_request_no_source_text.py` lines 104-137, identical in
the onetime variant): the underlying PDF parse is abstracted into the
raw per-page texts, the non-empty tables (original index, serialized
rows) and the image basenames; the function assembles the combined text
by joining the page lines, the table lines and the image listing with
newlines, in that order.  Persisting the raw snapshot is a side effect
with no bearing on the returned text and is not modelled. -/
def extract_from_pdf (pages : List (List Char)) (tables : List (Nat × List Char))
    (images : List (List Char)) : List Char :=
  joinWith ('\n' :: []) (pageSection pages ++ tableSection tables ++ imageSection images)

/-- Model of the guard `if not full_text: ... return None` in
`process_file` (lines 483-485): the document is skipped exactly when the
combined text is empty. -/
def process_file_skips (full_text : List Char) : Bool :=
  full_text.isEmpty

/-- C3 counterexample: when the underlying parse yields no page text, no
tables and no images, `extract_from_pdf` does not fail — it returns the
non-empty string `"\nImages found:"` — and `process_file` therefore does
not skip the document. -/
theorem extract_from_pdf_empty_cex :
    extract_from_pdf [] [] [] = "\nImages found:".data
    ∧ "\nImages found:".data ≠ ([] : List Char)
    ∧ process_file_skips (extract_from_pdf [] [] []) = false := by
  refine ⟨rfl, by decide, rfl⟩

theorem joinWith_append_cons_ne_nil (sep hd : List Char) (hhd : hd ≠ []) :
    ∀ xs ys, joinWith sep (xs ++ hd :: ys) ≠ [] := by
  intro xs
  induction xs with
  | nil =>
    intro ys
    cases ys with
    | nil => simpa [joinWith] using hhd
    | cons y yr => simp [joinWith, List.append_eq_nil, hhd]
  | cons x xr ih =>
    intro ys
    rw [List.cons_append]
    cases hxr : xr ++ hd :: ys with
    | nil => exact absurd hxr (by simp)
    | cons a r =>
      have hj : joinWith sep (a :: r) ≠ [] := hxr ▸ ih ys
      simp [joinWith, List.append_eq_nil, hj]

/-- C3 (amended): `extract_from_pdf` always returns a non-empty combined
text — even when the underlying parse yields no page text, no tables and
no images, the output still contains the `"\nImages found:"` header — so
no extraction failure is ever signalled through the return value and the
caller's skip branch (`if not full_text`) is never taken.  An extraction
failure can only surface as an exception raised by the underlying PDF
library, which aborts the whole document at the driver level. -/
theorem extract_from_pdf_never_empty (pages : List (List Char))
    (tables : List (Nat × List Char)) (images : List (List Char)) :
    extract_from_pdf pages tables images ≠ []
    ∧ process_file_skips (extract_from_pdf pages tables images) = false := by
  have h : extract_from_pdf pages tables images ≠ [] := by
    unfold extract_from_pdf imageSection
    exact joinWith_append_cons_ne_nil ('\n' :: []) ("\nImages found:".data) (by decide)
      (pageSection pages ++ tableSection tables) (images.map (fun b => "- ".data ++ b))
  refine ⟨h, ?_⟩
  unfold process_file_skips
  cases hx : extract_from_pdf pages tables images with
  | nil => exact absurd hx h
  | cons a r => rfl

/-- A two-page document with one table (index 0) and no images, as seen
by the Document Loader. -/
def loaderDemo : List Char :=
  extract_from_pdf ["alpha".data, "beta".data] [(0, "[]".data)] []

/-- C7: the combined text emits all page texts in page order first, then
every non-empty table tagged with its index, then the image-reference
list last; and on a two-page document with one table and no images the
text contains "Page 1:", "Page 2:" and "Table 0:" at increasing
positions, followed by "Images found:" with nothing beneath it (the
text ends right after the header). -/
theorem extract_from_pdf_ordering :
    (∀ (pages : List (List Char)) (tables : List (Nat × List Char)) (images : List (List Char)),
      extract_from_pdf pages tables images
        = joinWith ('\n' :: []) (pageSection pages ++ tableSection tables ++ imageSection images))
    ∧ firstIdx ("Page 1:".data) loaderDemo = some 0
    ∧ firstIdx ("Page 2:".data) loaderDemo = some 14
    ∧ firstIdx ("Table 0:".data) loaderDemo = some 28
    ∧ firstIdx ("Images found:".data) loaderDemo = some 41
    ∧ (0 < 14 ∧ 14 < 28 ∧ 28 < 41)
    ∧ (splitFirst ("\nImages found:".data) loaderDemo).map Prod.snd = some [] :=
  ⟨fun _ _ _ => rfl, by decide, by decide, by decide, by decide, by decide, by decide⟩

/-- Python dict lookup on a JSON object: `entry.get(key)`, i.e. `some`
of the stored value whenever the key is present — even when that value
is `null` — and `none` when the key is absent. -/
def objGet (key : String) : JObj → Option JVal
  | .nil => none
  | .cons k v t => if k = key then some v else objGet key t

/-- Python dict item assignment on a JSON object: replace the value in
place when the key is present, else append the new pair at the end. -/
def objInsert (key : String) (v : JVal) : JObj → JObj
  | .nil => .cons key v .nil
  | .cons k w t => if k = key then .cons k v t else .cons k w (objInsert key v t)

/-- Model of the attachment pattern of the Refinement Loop
(`o3mini_multiple_request_no_source_text.py` lines 542-546 and 571-575):
```
if phases_data:
    material_data["phases"] = phases_data[0] if isinstance(phases_data, list) else phases_data
```
`res` is the `fix_json` result; nothing is attached when it is `None` or
falsy (in particular an empty list), the first element is attached when
it is a non-empty list, and the value itself otherwise. -/
def attachField (name : String) (res : Option JVal) (m : JObj) : JObj :=
  match res with
  | none => m
  | some v =>
    if truthy v then
      match v with
      | .arr (.cons x _) => objInsert name x m
      | w => objInsert name w m
    else m

/-- One material's refinement: attach the phases result, then the
properties result, in that fixed order. -/
def refineRecord (ph pr : Option JVal) (m : JObj) : JObj :=
  attachField "properties" pr (attachField "phases" ph m)

/-- Outcome of the Refinement Loop: either every material was processed,
or an uncaught exception interrupted the loop, `raised` carrying the
in-memory database at the moment it propagated (the driver then discards
it and records the document as failed). -/
inductive RefineResult where
  | ok (db : List (JVal × JObj))
  | raised (db : List (JVal × JObj))

/-- Model of the Refinement Loop of `process_file`
(`o3mini_multiple_request_no_source_text.py` lines 519-575).  For each
material in order: the raw phases-extraction backend call (`stepsPh`,
NOT inside any `try` — an exception propagates and aborts the loop),
whose `Except.ok` value is the subsequent `fix_json` result (`none` for
a structuring failure, which `fix_json` absorbs including failures of
its own backend call); attach; then the same for properties (`stepsPr`),
whose prompt embeds the record as mutated by the phases attachment. -/
def refineLoop (stepsPh stepsPr : JVal → JObj → Except Unit (Option JVal)) :
    List (JVal × JObj) → RefineResult
  | [] => .ok []
  | (k, m) :: rest =>
    match stepsPh k m with
    | .error _ => .raised ((k, m) :: rest)
    | .ok ph =>
      match stepsPr k (attachField "phases" ph m) with
      | .error _ => .raised ((k, attachField "phases" ph m) :: rest)
      | .ok pr =>
        match refineLoop stepsPh stepsPr rest with
        | .ok rest' => .ok ((k, refineRecord ph pr m) :: rest')
        | .raised rest' => .raised ((k, refineRecord ph pr m) :: rest')

/-- First material of the two-material counterexample database. -/
def refineCexA : JVal := JVal.str "A"

/-- Second material of the two-material counterexample database. -/
def refineCexB : JVal := JVal.str "B"

/-- A bare record holding only composition-processing data. -/
def refineCexRec : JObj :=
  JObj.cons "composition_processing" (JVal.obj JObj.nil) JObj.nil

/-- A phases value the fixing step would attach to material B. -/
def refineCexPhVal : JVal :=
  JVal.arr (JArr.cons (JVal.obj (JObj.cons "Matrix" JVal.null JObj.nil)) JArr.nil)

/-- Phases-step oracle: the raw backend call raises for material A and
returns an attachable phases value for every other material. -/
def refineCexPh (k : JVal) (_ : JObj) : Except Unit (Option JVal) :=
  if k = refineCexA then Except.error () else Except.ok (some refineCexPhVal)

/-- Properties-step oracle: always returns, with no structured data. -/
def refineCexPr (_ : JVal) (_ : JObj) : Except Unit (Option JVal) :=
  Except.ok none

/-- The two-material counterexample database. -/
def refineCexDb : List (JVal × JObj) :=
  [(refineCexA, refineCexRec), (refineCexB, refineCexRec)]

/-- C4 counterexample: an exception from the raw phases-extraction
backend call for the first of two materials propagates out of the
Refinement Loop, so the second material is never refined — even though
its own steps would have succeeded and attached a phases field. -/
theorem refineLoop_backend_error_cex :
    refineLoop refineCexPh refineCexPr refineCexDb = RefineResult.raised refineCexDb
    ∧ attachField "phases" (some refineCexPhVal) refineCexRec ≠ refineCexRec :=
  ⟨rfl, by decide⟩

/-- C4 (amended): as long as no raw extraction backend call raises, the
Refinement Loop processes every material of the document independently —
the resulting record of each material is a function of that material's
own key, record, and step results alone — and a structuring failure
(`fix_json` returning no data, which also covers a failure of the
backend call inside `fix_json`) attaches nothing, leaving the data
already on the record intact.  When a raw phases- or
properties-extraction call raises, however, the loop is interrupted and
the remaining materials are not refined, as the counterexample above
shows. -/
theorem refineLoop_independent (phf prf : JVal → JObj → Option JVal)
    (db : List (JVal × JObj)) :
    refineLoop (fun k m => Except.ok (phf k m)) (fun k m => Except.ok (prf k m)) db
      = RefineResult.ok (db.map (fun km =>
          (km.1, refineRecord (phf km.1 km.2)
                   (prf km.1 (attachField "phases" (phf km.1 km.2) km.2)) km.2)))
    ∧ (∀ name m, attachField name none m = m) := by
  constructor
  · induction db with
    | nil => rfl
    | cons hd tl ih =>
      obtain ⟨k, m⟩ := hd
      simp [refineLoop, ih, refineRecord]
  · intro name m
    rfl

/-- The Refinement Loop's body for a single material A
(`o3mini_multiple_request_no_source_text.py` lines 519-546 with 548-575):
Python mutates `material_data` — the dict stored under key A — in place,
attaching the phases and then the properties result, and touches no
other entry of `article_database`. -/
def refineStep (A : JVal) (ph pr : Option JVal) (db : List (JVal × JObj)) :
    List (JVal × JObj) :=
  db.map (fun km => if km.1 = A then (km.1, refineRecord ph pr km.2) else km)

/-- Python dict lookup in the per-document database. -/
def lookupDb (k : JVal) : List (JVal × JObj) → Option JObj
  | [] => none
  | (k', m) :: r => if k' = k then some m else lookupDb k r

/-- C5: enriching material A with phases and then properties leaves the
record of every other material B exactly as it was before the step. -/
theorem refineStep_frame (A B : JVal) (ph pr : Option JVal)
    (db : List (JVal × JObj)) (h : A ≠ B) :
    lookupDb B (refineStep A ph pr db) = lookupDb B db := by
  induction db with
  | nil => rfl
  | cons hd tl ih =>
    obtain ⟨k, m⟩ := hd
    by_cases hk : k = A
    · subst hk
      have hstep : refineStep k ph pr ((k, m) :: tl)
          = (k, refineRecord ph pr m) :: refineStep k ph pr tl := by
        simp [refineStep]
      rw [hstep]
      simp only [lookupDb]
      rw [if_neg h, if_neg h]
      exact ih
    · have hstep : refineStep A ph pr ((k, m) :: tl) = (k, m) :: refineStep A ph pr tl := by
        simp [refineStep, hk]
      rw [hstep]
      simp only [lookupDb]
      by_cases hb : k = B
      · rw [if_pos hb, if_pos hb]
      · rw [if_neg hb, if_neg hb]
        exact ih

theorem refineStep_frame_witness :
    lookupDb refineCexB
        (refineStep refineCexA (some refineCexPhVal) none refineCexDb)
      = lookupDb refineCexB refineCexDb :=
  refineStep_frame refineCexA refineCexB (some refineCexPhVal) none refineCexDb (by decide)

/-- C8: for an unparsable backend response, `fix_json` returns no data —
it cannot raise, being a total function into `Option` — and the
refinement step attaching that result adds no field at all, leaving the
material's record exactly as it was. -/
theorem fix_json_failure_attaches_nothing (parse : List Char → Option JVal)
    (content : List Char) (name : String) (m : JObj)
    (h : parse (stripComments (candidate content)) = none) :
    fix_json (Except.ok content) parse = none
    ∧ attachField name (fix_json (Except.ok content) parse) m = m := by
  have hf : fix_json (Except.ok content) parse = none := by
    simp [fix_json, h]
  refine ⟨hf, ?_⟩
  rw [hf]
  rfl

theorem fix_json_failure_attaches_nothing_witness :
    fix_json (Except.ok ("I cannot answer that.".data)) (fun _ => none) = none
    ∧ attachField "phases" (fix_json (Except.ok ("I cannot answer that.".data)) (fun _ => none))
        refineCexRec = refineCexRec :=
  fix_json_failure_attaches_nothing (fun _ => none) ("I cannot answer that.".data)
    "phases" refineCexRec rfl

/-- Whether a per-document run raised an unrecovered exception. -/
def isErr (r : Except Unit Unit) : Bool :=
  match r with
  | .error _ => true
  | .ok _ => false

/-- The driver's per-file body (`main`, lines 609-617 of the multiple
variant, 484-492 of the onetime variant): files not ending in `.pdf` are
ignored; for the others `process_file` is attempted, any exception is
caught, the filename is appended to the failure list, and the loop
continues.  The accumulator carries the failure list and the number of
documents attempted. -/
def mainStep (outcome : List Char → Except Unit Unit)
    (acc : List (List Char) × Nat) (f : List Char) : List (List Char) × Nat :=
  if (".pdf".data).isSuffixOf f then
    match outcome f with
    | .ok _ => (acc.1, acc.2 + 1)
    | .error _ => (acc.1 ++ [f], acc.2 + 1)
  else acc

/-- Model of the Pipeline Driver `main` (lines 597-625 of the multiple
variant; the reserved Lean name forces the `mainRun` spelling): iterate
over the directory listing, isolate each document's
failure, and — as the terminal step, after the loop — persist the
failure ledger, here returned as the first component together with the
number of documents attempted. -/
def mainRun (outcome : List Char → Except Unit Unit) (files : List (List Char)) :
    List (List Char) × Nat :=
  files.foldl (mainStep outcome) ([], 0)

theorem main_foldl_acc (outcome : List Char → Except Unit Unit) :
    ∀ (files : List (List Char)) (acc : List (List Char) × Nat),
      files.foldl (mainStep outcome) acc
        = (acc.1 ++ files.filter (fun f => (".pdf".data).isSuffixOf f && isErr (outcome f)),
           acc.2 + (files.filter (fun f => (".pdf".data).isSuffixOf f)).length) := by
  intro files
  induction files with
  | nil =>
    intro acc
    simp
  | cons f fs ih =>
    intro acc
    rw [List.foldl_cons, ih]
    by_cases hp : (".pdf".data).isSuffixOf f
    · cases ho : outcome f with
      | ok u =>
        simp [mainStep, hp, ho, isErr, List.filter_cons]
        omega
      | error e =>
        simp [mainStep, hp, ho, isErr, List.filter_cons]
        omega
    · simp [mainStep, hp, List.filter_cons]

/-- C6: for every directory listing and every per-document outcome, the
driver attempts every `.pdf` file — no per-document failure aborts the
batch — and the ledger it persists at the end lists exactly the files
whose processing raised, in directory order. -/
theorem main_ledger (outcome : List Char → Except Unit Unit) (files : List (List Char)) :
    (mainRun outcome files).1
        = files.filter (fun f => (".pdf".data).isSuffixOf f && isErr (outcome f))
    ∧ (mainRun outcome files).2 = (files.filter (fun f => (".pdf".data).isSuffixOf f)).length := by
  unfold mainRun
  rw [main_foldl_acc outcome files ([], 0)]
  simp

/-- The generated fallback identifier `f"{file_name}_Sample_{n}"`. -/
def genId (file : String) (n : Nat) : String :=
  file ++ "_Sample_" ++ Nat.repr n

/-- Python dict item assignment in the per-document database: keys are
arbitrary JSON values (`entry.get("Material", ...)` can produce `null`,
numbers, strings, ...); assignment replaces the value in place when the
key is present and appends at the end otherwise. -/
def dictInsert (k : JVal) (v : JObj) : List (JVal × JObj) → List (JVal × JObj)
  | [] => [(k, v)]
  | (k', w) :: r => if k' = k then (k', v) :: r else (k', w) :: dictInsert k v r

/-- One iteration of the database-building loop of the multiple-request
variant (`o3mini_multiple_request_no_source_text.py` lines 512-515):
```
material_id = entry.get("Material", f"{file_name}_Sample_{len(article_database) + 1}")
article_database[material_id] = {"composition_processing": entry}
```
`entry.get` returns the stored value whenever the key `"Material"` is
present — including `null` — and the generated identifier only when the
key is absent. -/
def buildStepM (file : String) (db : List (JVal × JObj)) (entry : JObj) :
    List (JVal × JObj) :=
  dictInsert
    (match objGet "Material" entry with
      | some v => v
      | none => JVal.str (genId file (db.length + 1)))
    (JObj.cons "composition_processing" (JVal.obj entry) JObj.nil) db

/-- The database built by the multiple-request variant from the
structured entries of one document. -/
def buildDatabaseM (file : String) (entries : List JObj) : List (JVal × JObj) :=
  entries.foldl (buildStepM file) []

/-- One iteration of the database-building loop of the one-time-request
variant (`o3mini_onetime_request_no_source_text.py` lines 445-449): the
fallback ordinal is the entry's position (from `enumerate`) plus one,
and the entry itself is stored. -/
def buildStepO (file : String) (db : List (JVal × JObj)) (ie : Nat × JObj) :
    List (JVal × JObj) :=
  dictInsert
    (match objGet "Material" ie.2 with
      | some v => v
      | none => JVal.str (genId file (ie.1 + 1)))
    ie.2 db

/-- The database built by the one-time-request variant. -/
def buildDatabaseO (file : String) (entries : List JObj) : List (JVal × JObj) :=
  entries.enum.foldl (buildStepO file) []

/-- C9 counterexample: an entry whose `"Material"` value is `null`
carries no author-assigned name, yet the generated-identifier fallback
is not applied — the database key becomes `null`, not
`"doc_Sample_1"` — because `dict.get` only falls back when the key is
absent. -/
theorem material_null_key_cex :
    buildDatabaseM "doc" [JObj.cons "Material" JVal.null JObj.nil]
      = [(JVal.null,
          JObj.cons "composition_processing"
            (JVal.obj (JObj.cons "Material" JVal.null JObj.nil)) JObj.nil)]
    ∧ JVal.null ≠ JVal.str (genId "doc" 1) :=
  ⟨rfl, by decide⟩

/-- C9 (amended): the database key for an entry is the entry's
`"Material"` value whenever that key is present — even when the value is
`null` or not a string — and the generated `{file}_Sample_{n}`
identifier is used exactly when the key is absent, with `n` the current
database size plus one in the multiple-request variant and the entry's
ordinal position in the one-time-request variant; each processed entry
amounts to one Python dict assignment under that key. -/
theorem build_key_choice (file : String) (db : List (JVal × JObj)) (entry : JObj) (i : Nat) :
    (∀ v, objGet "Material" entry = some v →
        buildStepM file db entry
            = dictInsert v (JObj.cons "composition_processing" (JVal.obj entry) JObj.nil) db
        ∧ buildStepO file db (i, entry) = dictInsert v entry db)
    ∧ (objGet "Material" entry = none →
        buildStepM file db entry
            = dictInsert (JVal.str (genId file (db.length + 1)))
                (JObj.cons "composition_processing" (JVal.obj entry) JObj.nil) db
        ∧ buildStepO file db (i, entry)
            = dictInsert (JVal.str (genId file (i + 1))) entry db)
    ∧ (∀ (es : List JObj) (e : JObj),
        buildDatabaseM file (es ++ [e]) = buildStepM file (buildDatabaseM file es) e) := by
  refine ⟨?_, ?_, ?_⟩
  · intro v hv
    constructor <;> simp [buildStepM, buildStepO, hv]
  · intro hn
    constructor <;> simp [buildStepM, buildStepO, hn]
  · intro es e
    unfold buildDatabaseM
    rw [List.foldl_append]
    rfl

theorem build_key_choice_witness :
    buildStepM "d" [] (JObj.cons "Material" (JVal.str "X") JObj.nil)
      = dictInsert (JVal.str "X")
          (JObj.cons "composition_processing"
            (JVal.obj (JObj.cons "Material" (JVal.str "X") JObj.nil)) JObj.nil) [] :=
  ((build_key_choice "d" [] (JObj.cons "Material" (JVal.str "X") JObj.nil) 0).1
    (JVal.str "X") rfl).1

/-- Python `key in dict` for the per-document database. -/
def containsKey (k : JVal) : List (JVal × JObj) → Bool
  | [] => false
  | (k', _) :: r => if k' = k then true else containsKey k r

theorem dictInsert_length_le (k : JVal) (v : JObj) (db : List (JVal × JObj)) :
    (dictInsert k v db).length ≤ db.length + 1 := by
  induction db with
  | nil => simp [dictInsert]
  | cons hd r ih =>
    obtain ⟨a, b⟩ := hd
    by_cases ha : a = k
    · simp [dictInsert, ha]
    · simp only [dictInsert, ha, if_false, List.length_cons]
      omega

theorem containsKey_dictInsert_self (k : JVal) (v : JObj) (db : List (JVal × JObj)) :
    containsKey k (dictInsert k v db) = true := by
  induction db with
  | nil => simp [dictInsert, containsKey]
  | cons hd r ih =>
    obtain ⟨a, b⟩ := hd
    by_cases ha : a = k
    · simp [dictInsert, ha, containsKey]
    · simp only [dictInsert, ha, if_false, containsKey]
      exact ih

theorem containsKey_dictInsert_mono (k k' : JVal) (v : JObj) (db : List (JVal × JObj))
    (h : containsKey k db = true) : containsKey k (dictInsert k' v db) = true := by
  induction db with
  | nil => simp [containsKey] at h
  | cons hd r ih =>
    obtain ⟨a, b⟩ := hd
    by_cases ha' : a = k'
    · subst ha'
      simp only [dictInsert, if_pos rfl]
      simpa [containsKey] using h
    · simp only [dictInsert, ha', if_false]
      by_cases hak : a = k
      · simp [containsKey, hak]
      · simp only [containsKey, hak, if_false] at h ⊢
        exact ih h

theorem dictInsert_length_of_contains (k : JVal) (v : JObj) (db : List (JVal × JObj))
    (h : containsKey k db = true) : (dictInsert k v db).length = db.length := by
  induction db with
  | nil => simp [containsKey] at h
  | cons hd r ih =>
    obtain ⟨a, b⟩ := hd
    by_cases ha : a = k
    · simp [dictInsert, ha]
    · simp only [containsKey, ha, if_false] at h
      simp only [dictInsert, ha, if_false, List.length_cons]
      rw [ih h]

theorem buildStepM_length_le (file : String) (db : List (JVal × JObj)) (e : JObj) :
    (buildStepM file db e).length ≤ db.length + 1 := by
  unfold buildStepM
  exact dictInsert_length_le _ _ db

theorem buildM_length_le (file : String) :
    ∀ (es : List JObj) (db : List (JVal × JObj)),
      (List.foldl (buildStepM file) db es).length ≤ db.length + es.length := by
  intro es
  induction es with
  | nil =>
    intro db
    simp
  | cons e es ih =>
    intro db
    rw [List.foldl_cons]
    have h1 := ih (buildStepM file db e)
    have h2 := buildStepM_length_le file db e
    simp only [List.length_cons]
    omega

theorem buildM_contains (file : String) (k : JVal) :
    ∀ (es : List JObj) (db : List (JVal × JObj)),
      containsKey k db = true → containsKey k (List.foldl (buildStepM file) db es) = true := by
  intro es
  induction es with
  | nil =>
    intro db h
    simpa using h
  | cons e es ih =>
    intro db h
    rw [List.foldl_cons]
    refine ih (buildStepM file db e) ?_
    unfold buildStepM
    exact containsKey_dictInsert_mono k _ _ db h

/-- C10: when two structured entries carry the same `"Material"` value —
including `null`, which counts as present and bypasses the fallback —
the building loop computes the same key for both, the later assignment
replaces the earlier one (second conjunct), and the resulting database
is strictly smaller than the list of entries the structuring step
produced. -/
theorem duplicate_material_collapses (file : String) (u : List JObj) (e1 : JObj)
    (v : List JObj) (e2 : JObj) (w : List JObj) (x : JVal)
    (h1 : objGet "Material" e1 = some x) (h2 : objGet "Material" e2 = some x) :
    (buildDatabaseM file (u ++ e1 :: v ++ e2 :: w)).length
        < (u ++ e1 :: v ++ e2 :: w).length
    ∧ ∀ (k : JVal) (val : JObj) (db : List (JVal × JObj)),
        lookupDb k (dictInsert k val db) = some val := by
  constructor
  · have key : buildDatabaseM file (u ++ e1 :: v ++ e2 :: w)
        = List.foldl (buildStepM file)
            (buildStepM file
              (List.foldl (buildStepM file)
                (buildStepM file (List.foldl (buildStepM file) [] u) e1) v) e2) w := by
      unfold buildDatabaseM
      rw [List.foldl_append, List.foldl_cons, List.foldl_append, List.foldl_cons]
    rw [key]
    have l1 : (List.foldl (buildStepM file) [] u).length ≤ u.length := by
      simpa using buildM_length_le file u []
    have l2 : (buildStepM file (List.foldl (buildStepM file) [] u) e1).length ≤ u.length + 1 := by
      have := buildStepM_length_le file (List.foldl (buildStepM file) [] u) e1
      omega
    have hc1 : containsKey x (buildStepM file (List.foldl (buildStepM file) [] u) e1) = true := by
      simp only [buildStepM, h1]
      exact containsKey_dictInsert_self x _ _
    have l3 : (List.foldl (buildStepM file)
        (buildStepM file (List.foldl (buildStepM file) [] u) e1) v).length
          ≤ u.length + 1 + v.length := by
      have := buildM_length_le file v
        (buildStepM file (List.foldl (buildStepM file) [] u) e1)
      omega
    have hcv : containsKey x (List.foldl (buildStepM file)
        (buildStepM file (List.foldl (buildStepM file) [] u) e1) v) = true :=
      buildM_contains file x v _ hc1
    have l4 : (buildStepM file
        (List.foldl (buildStepM file)
          (buildStepM file (List.foldl (buildStepM file) [] u) e1) v) e2).length
          ≤ u.length + 1 + v.length := by
      simp only [buildStepM, h2]
      rw [dictInsert_length_of_contains x _ _ (by simpa [buildStepM, h2] using hcv)]
      exact l3
    have l5 := buildM_length_le file w
      (buildStepM file
        (List.foldl (buildStepM file)
          (buildStepM file (List.foldl (buildStepM file) [] u) e1) v) e2)
    simp only [List.length_append, List.length_cons]
    omega
  · intro k val db
    induction db with
    | nil => simp [dictInsert, lookupDb]
    | cons hd r ih =>
      obtain ⟨a, b⟩ := hd
      by_cases ha : a = k
      · simp [dictInsert, ha, lookupDb]
      · simp only [dictInsert, ha, if_false, lookupDb]
        exact ih

/-- First duplicate-key entry: `"Material"` explicitly `null`. -/
def dupEntry1 : JObj :=
  JObj.cons "Material" JVal.null (JObj.cons "a" (JVal.num 1) JObj.nil)

/-- Second duplicate-key entry: `"Material"` explicitly `null` again. -/
def dupEntry2 : JObj :=
  JObj.cons "Material" JVal.null (JObj.cons "a" (JVal.num 2) JObj.nil)

theorem duplicate_material_collapses_witness :
    (buildDatabaseM "d" ([] ++ dupEntry1 :: [] ++ dupEntry2 :: [])).length
        < ([] ++ dupEntry1 :: [] ++ dupEntry2 :: []).length
    ∧ buildDatabaseM "d" [dupEntry1, dupEntry2]
        = [(JVal.null, JObj.cons "composition_processing" (JVal.obj dupEntry2) JObj.nil)] :=
  ⟨(duplicate_material_collapses "d" [] dupEntry1 [] dupEntry2 [] JVal.null rfl rfl).1, rfl⟩

theorem extract_from_pdf_never_empty_witness :
    extract_from_pdf ["p".data] [] [] ≠ []
    ∧ process_file_skips (extract_from_pdf ["p".data] [] []) = false :=
  extract_from_pdf_never_empty ["p".data] [] []

/-- A phases fixing outcome used to instantiate the all-calls-return case. -/
def refineWPh (_ : JVal) (_ : JObj) : Option JVal :=
  some refineCexPhVal

/-- A properties fixing outcome used to instantiate the all-calls-return
case: a structuring failure for every material. -/
def refineWPr (_ : JVal) (_ : JObj) : Option JVal :=
  none

theorem refineLoop_independent_witness :
    refineLoop (fun k m => Except.ok (refineWPh k m)) (fun k m => Except.ok (refineWPr k m))
        refineCexDb
      = RefineResult.ok (refineCexDb.map (fun km =>
          (km.1, refineRecord (refineWPh km.1 km.2)
                   (refineWPr km.1 (attachField "phases" (refineWPh km.1 km.2) km.2)) km.2))) :=
  (refineLoop_independent refineWPh refineWPr refineCexDb).1

/-- A per-document outcome oracle where exactly one document fails. -/
def driverDemoOutcome (f : List Char) : Except Unit Unit :=
  if f = "bad.pdf".data then Except.error () else Except.ok ()

/-- A directory listing with two documents and one non-document file. -/
def driverDemoFiles : List (List Char) :=
  ["a.pdf".data, "bad.pdf".data, "notes.txt".data]

theorem main_ledger_witness :
    (mainRun driverDemoOutcome driverDemoFiles).1
        = driverDemoFiles.filter
            (fun f => (".pdf".data).isSuffixOf f && isErr (driverDemoOutcome f))
    ∧ (mainRun driverDemoOutcome driverDemoFiles).2
        = (driverDemoFiles.filter (fun f => (".pdf".data).isSuffixOf f)).length :=
  main_ledger driverDemoOutcome driverDemoFiles

theorem extract_from_pdf_ordering_witness :
    firstIdx ("Page 1:".data) loaderDemo = some 0 :=
  (extract_from_pdf_ordering).2.1
